import Mathlib

/-!
Verification development for `SiteInspector/site_inspector.py`, a threaded
same-site crawler that reports spelling issues and broken links.

The Python source is shallowly embedded below.  The external world is a
parameter: `Web` maps a URL to the page obtained by `requests.get` (with
`none` meaning the GET raised), and the robots.txt download performed by
`RobotFileParser.read()` is summarised by a `RobotsFetch` outcome.  The
concurrency of the thread pool is modelled by the serialised interleaving
in which every future of a batch is submitted before any worker runs, and
workers then run and are merged one after another in submission order;
all mutations of the shared state (`visited`, `crawl_count`, `to_visit`,
`report`) are performed under locks in the source, and this interleaving
is one legal schedule of them.  Two ghost fields record the observable
side effects the claims mention: `fetched` lists the URLs for which a page
GET was actually issued, and `progress` lists the printed
`Crawled (n/max): url` progress lines.
-/

/-- Character class accepted in a URL scheme by `urllib.parse.urlsplit`
(letters, digits, `+`, `-`, `.`). -/
def schemeChar (c : Char) : Bool :=
  c.isAlpha || c.isDigit || c = '+' || c = '-' || c = '.'

/-- Split a character list at the first `':'`, returning the part before
and the part after it, or `none` when there is no colon.  This mirrors
`url.find(':')` in `urlsplit`. -/
def splitOnColon : List Char → Option (List Char × List Char)
  | [] => none
  | c :: cs =>
    if c = ':' then some ([], cs)
    else
      match splitOnColon cs with
      | some (pre, post) => some (c :: pre, post)
      | none => none

/-- Drop a leading `scheme:` from a URL, exactly when `urlsplit` does:
the text before the first colon must be nonempty, start with a letter and
consist of scheme characters only. -/
def dropScheme (cs : List Char) : List Char :=
  match splitOnColon cs with
  | some (pre, post) =>
    match pre with
    | [] => cs
    | c0 :: _ => if c0.isAlpha && pre.all schemeChar then post else cs
  | none => cs

/-- The netloc runs from after `//` up to the next `/`, `?` or `#`
(CPython `_splitnetloc`). -/
def netlocChars (cs : List Char) : List Char :=
  cs.takeWhile (fun c => !(c = '/' || c = '?' || c = '#'))

/-- Model of `urllib.parse.urlparse(url).netloc`: strip the scheme, then
if the remainder starts with `//` take the characters up to the next
`/`, `?` or `#`; otherwise the netloc is empty.  No case folding is
performed, matching `urlsplit`, which returns the authority verbatim. -/
def netloc (url : String) : String :=
  match dropScheme url.data with
  | '/' :: '/' :: rest => String.mk (netlocChars rest)
  | _ => ""

/-- `is_internal_link` from the source (lines 24-27): the link is internal
iff its netloc is empty or equals the base URL's netloc, by plain string
equality. -/
def is_internal_link (base_url link : String) : Bool :=
  netloc link == "" || netloc link == netloc base_url

/-- ASCII lowercasing of a string, used only to state the spec's
case-insensitive host comparison. -/
def asciiLower (s : String) : String :=
  String.mk (s.data.map Char.toLower)

/-- The internal-link test as the spec words it (`is_internal` of §4.2):
true iff the candidate's host is empty or equals the base host compared
case-insensitively. -/
def specInternal (base_url link : String) : Bool :=
  netloc link == "" || asciiLower (netloc link) == asciiLower (netloc base_url)

/-- State of a `urllib.robotparser.RobotFileParser` after `read()` was
attempted.  `rules` abstracts the allowance decision made by the parsed
entries together with the default entry (a URL judged by the parsed
rule set, `true` when no entry applies). -/
structure RobotsState where
  disallow_all : Bool
  allow_all : Bool
  last_checked : Bool
  rules : String → Bool

/-- Outcome of the robots.txt download attempted by `rp.read()` inside
`crawl` (lines 121-126): the body was fetched and parsed, or `urlopen`
raised an `HTTPError` with some status code, or it raised a non-HTTP
error (DNS failure, connection refused, timeout). -/
inductive RobotsFetch where
  | success (rules : String → Bool)
  | httpError (code : Nat)
  | netError

/-- The parser state produced by the `try: rp.read() except: pass` of
`crawl`, following CPython's `RobotFileParser.read`: a parsed body sets
`last_checked` (via `parse` calling `modified`); HTTP 401/403 set
`disallow_all`; other 4xx set `allow_all`; any other HTTP code leaves the
parser untouched; and a non-HTTP error propagates out of `read()` into
the bare `except: pass`, also leaving the parser in its freshly
constructed state with `last_checked = 0`. -/
def rpAfterRead : RobotsFetch → RobotsState
  | RobotsFetch.success rules => ⟨false, false, true, rules⟩
  | RobotsFetch.httpError code =>
    if code = 401 ∨ code = 403 then ⟨true, false, false, fun _ => true⟩
    else if 400 ≤ code ∧ code < 500 then ⟨false, true, false, fun _ => true⟩
    else ⟨false, false, false, fun _ => true⟩
  | RobotsFetch.netError => ⟨false, false, false, fun _ => true⟩

/-- CPython's `RobotFileParser.can_fetch`: deny when `disallow_all`,
allow when `allow_all`, and — before any rule is consulted — deny every
URL while `last_checked` is still 0, i.e. while the file has never been
successfully read; only then evaluate the parsed rules. -/
def canFetch (rp : RobotsState) (url : String) : Bool :=
  if rp.disallow_all then false
  else if rp.allow_all then true
  else if !rp.last_checked then false
  else rp.rules url

/-- `can_fetch_url` from the source (lines 59-63): delegate to
`rp.can_fetch("*", url)`; the `except: return True` guard has no effect
in the model because `canFetch` is total. -/
def can_fetch_url (url : String) (rp : RobotsState) : Bool :=
  canFetch rp url

/-- Per-page result dict `{"spelling_issues": ..., "broken_links": ...}`. -/
structure PageResult where
  spelling_issues : List (String × Option String)
  broken_links : List String
deriving DecidableEq, Repr

/-- The result dict as initialised at the top of `process_page`. -/
def emptyResult : PageResult := ⟨[], []⟩

/-- What the network returns for one URL whose GET succeeds: the data the
page analysis extracts from the body — the misspelling map computed by
`check_spelling`, the broken references computed by `check_broken_links`,
and the absolute URLs (`urljoin(url, href)`, fragments preserved) of its
anchor links in document order. -/
structure FetchedPage where
  spelling : List (String × Option String)
  broken : List String
  links : List String

/-- The reachable web: `none` means `requests.get(url)` raises. -/
def Web := String → Option FetchedPage

/-- The progress line printed by `process_page` after incrementing the
shared counter. -/
def progressLine (n m : Nat) (url : String) : String :=
  "Crawled (" ++ toString n ++ "/" ++ toString m ++ "): " ++ url

/-- Everything one call of `process_page` returns or observably does:
its returned `(result, new_links)` pair, the updated shared counter, the
progress line it printed (if any), and whether a page GET was issued. -/
structure PPOut where
  result : Option PageResult
  new_links : List String
  count : Nat
  progressOut : Option String
  didFetch : Bool
deriving Repr

/-- `process_page` (lines 68-111), with the shared globals passed and
returned explicitly.  In order: the budget gate returns `None, []` when
`crawl_count >= max_pages`; a robots denial returns the still-empty
result; a raising GET is caught by the bare `except` and also returns
the still-empty result with no links and no counter increment; a
successful GET yields the page's analysis, the internal links not yet
visited (duplicates preserved, as in the source), the incremented
counter and a progress line. -/
def process_page (web : Web) (rp : RobotsState) (base_url : String)
    (max_pages : Nat) (visited : List String) (crawl_count : Nat)
    (url : String) : PPOut :=
  if max_pages ≤ crawl_count then ⟨none, [], crawl_count, none, false⟩
  else if ¬ can_fetch_url url rp then ⟨some emptyResult, [], crawl_count, none, false⟩
  else
    match web url with
    | none => ⟨some emptyResult, [], crawl_count, none, true⟩
    | some pg =>
      let new_links := pg.links.filter
        (fun l => is_internal_link base_url l && decide (l ∉ visited))
      ⟨some ⟨pg.spelling, pg.broken⟩, new_links, crawl_count + 1,
        some (progressLine (crawl_count + 1) max_pages url), true⟩

/-- The shared crawl state: the globals `visited` and `crawl_count`, the
locals `to_visit` and `report` of `crawl`, and the two ghost logs. -/
structure CrawlState where
  visited : List String
  to_visit : List String
  crawl_count : Nat
  report : List (String × PageResult)
  progress : List String
  fetched : List String
deriving Repr

/-- Python dict assignment `report[url] = r`: replace in place when the
key exists, append otherwise. -/
def dictInsert (report : List (String × PageResult)) (url : String)
    (r : PageResult) : List (String × PageResult) :=
  if report.any (fun p => p.1 = url)
  then report.map (fun p => if p.1 = url then (url, r) else p)
  else report ++ [(url, r)]

/-- The merge loop of lines 147-150: each discovered link is appended to
`to_visit` when it is not yet visited and `len(visited) + len(to_visit)`
is still below `max_pages`. -/
def addNewLinks (m : Nat) (visited : List String) :
    List String → List String → List String
  | to_visit, [] => to_visit
  | to_visit, l :: ls =>
    if l ∉ visited ∧ visited.length + to_visit.length < m
    then addNewLinks m visited (to_visit ++ [l]) ls
    else addNewLinks m visited to_visit ls

/-- The submission loop of lines 131-138: while `to_visit` is nonempty,
fewer than `max_workers` futures exist and the budget is not exhausted,
pop the head; a URL already visited is skipped, a fresh one is added to
`visited` and submitted (collected into `batch`).  Returns the updated
`visited`, the remaining `to_visit` and the submitted batch in order. -/
def submitPhase (m w crawl_count : Nat) (visited : List String) :
    List String → List String → List String × List String × List String
  | [], batch => (visited, [], batch)
  | url :: rest, batch =>
    if batch.length < w ∧ crawl_count < m then
      if url ∈ visited then submitPhase m w crawl_count visited rest batch
      else submitPhase m w crawl_count (url :: visited) rest (batch ++ [url])
    else (visited, url :: rest, batch)

/-- Handling of one completed future (lines 141-150): run `process_page`
for the URL against the current globals, record the ghost logs, and when
the returned result is not `None` store it in the report and merge the
discovered links into `to_visit`. -/
def stepPage (web : Web) (rp : RobotsState) (base_url : String)
    (m : Nat) (st : CrawlState) (url : String) : CrawlState :=
  let out := process_page web rp base_url m st.visited st.crawl_count url
  let st1 : CrawlState :=
    { st with
      crawl_count := out.count
      fetched := if out.didFetch then st.fetched ++ [url] else st.fetched
      progress :=
        match out.progressOut with
        | some line => st.progress ++ [line]
        | none => st.progress }
  match out.result with
  | none => st1
  | some r =>
    { st1 with
      report := dictInsert st1.report url r
      to_visit := addNewLinks m st1.visited st1.to_visit out.new_links }

/-- The completion loop of lines 140-150 in submission order: handle
each submitted future in turn. -/
def processPhase (web : Web) (rp : RobotsState) (base_url : String)
    (m : Nat) : CrawlState → List String → CrawlState
  | st, [] => st
  | st, url :: rest =>
    processPhase web rp base_url m (stepPage web rp base_url m st url) rest

/-- One iteration of the outer `while` of `crawl`: fill a batch of at
most `max_workers` fresh URLs, then process and merge them. -/
def runBatch (web : Web) (rp : RobotsState) (base_url : String)
    (m w : Nat) (st : CrawlState) : CrawlState :=
  let t := submitPhase m w st.crawl_count st.visited st.to_visit []
  processPhase web rp base_url m
    { st with visited := t.1, to_visit := t.2.1 } t.2.2

/-- The outer `while to_visit and crawl_count < max_pages` loop, with
fuel bounding the number of iterations; the fuel chosen in `crawl` is
proved sufficient below. -/
def crawlLoop (web : Web) (rp : RobotsState) (base_url : String)
    (m w : Nat) : Nat → CrawlState → CrawlState
  | 0, st => st
  | fuel + 1, st =>
    if st.to_visit ≠ [] ∧ st.crawl_count < m
    then crawlLoop web rp base_url m w fuel (runBatch web rp base_url m w st)
    else st

/-- The state on entry to the outer loop of `crawl`: the globals hold
their current values, `to_visit` holds the seed, `report` is empty. -/
def initState (base_url : String) (v0 : List String) (c0 : Nat) : CrawlState :=
  { visited := v0, to_visit := [base_url], crawl_count := c0
    report := [], progress := [], fetched := [] }

/-- `crawl` (lines 116-154): build the robots parser from the download
outcome, then run the loop from the initial state.  The globals
`visited` and `crawl_count` enter as `v0` and `c0` (a fresh process has
`[]` and `0`) and the final state carries their values at return.  The
fuel `(M+1)^2` with `M = max (|v0|+1) max_pages` dominates the loop
measure, as proved below. -/
def crawl (web : Web) (rfo : RobotsFetch) (base_url : String)
    (max_pages max_workers : Nat) (v0 : List String) (c0 : Nat) : CrawlState :=
  let M := max (v0.length + 1) max_pages
  crawlLoop web (rpAfterRead rfo) base_url max_pages max_workers
    ((M + 1) * (M + 1)) (initState base_url v0 c0)

/-- The keys of the report map. -/
def reportKeys (report : List (String × PageResult)) : List String :=
  report.map Prod.fst

/-- `Total Pages Crawled` of `export_report` (line 202): `len(summary)`. -/
def total_pages (summary : List (String × PageResult)) : Nat :=
  summary.length

/-- `Total Spelling Mistakes` of `export_report` (line 203). -/
def total_spelling (summary : List (String × PageResult)) : Nat :=
  (summary.map (fun p => p.2.spelling_issues.length)).sum

/-- `Total Broken Links/Images` of `export_report` (line 204). -/
def total_broken (summary : List (String × PageResult)) : Nat :=
  (summary.map (fun p => p.2.broken_links.length)).sum

/-- The crawl loop invariant.  Relative to the initial globals
(`v0` = initial `visited`, whose length enters the frontier-headroom
bound): the visited set is duplicate-free and only grows; the
`len(visited) + len(to_visit)` sum stays below `max (|v0| + 1) m`
because line 149 admits a link only while the sum is below `m`; report
keys are visited, pairwise distinct and never from `v0`; and the report
cannot outgrow the post-`v0` part of the visited set. -/
def GInv (m : Nat) (v0 : List String) (st : CrawlState) : Prop :=
  st.visited.Nodup ∧
  v0 ⊆ st.visited ∧
  st.visited.length + st.to_visit.length ≤ max (v0.length + 1) m ∧
  (∀ k ∈ reportKeys st.report, k ∈ st.visited) ∧
  (reportKeys st.report).Nodup ∧
  (∀ k ∈ reportKeys st.report, k ∉ v0) ∧
  st.report.length + v0.length ≤ st.visited.length

/-- Termination measure for the outer loop, with `M` a bound on
`len(visited) + len(to_visit)`: lexicographically, how much headroom the
visited set still has, then the frontier length. -/
def loopMeasure (M : Nat) (st : CrawlState) : Nat :=
  (M - st.visited.length) * (M + 1) + st.to_visit.length

/-- Test fixture: a robots.txt download whose body parsed and allows
every URL. -/
def allowAllRobots : RobotsFetch := RobotsFetch.success (fun _ => true)

/-- Test fixture: a three-page site where the seed links to the same
path once without and once with a fragment, plus one external link. -/
def webFrag : Web := fun s =>
  if s = "http://h/" then some ⟨[], [], ["http://h/p", "http://h/p#x", "http://x.test/z"]⟩
  else if s = "http://h/p" then some ⟨[("helo", some "hello")], ["http://h/missing.png"], []⟩
  else if s = "http://h/p#x" then some ⟨[], [], []⟩
  else none

/-- Test fixture: robots rules that disallow exactly `http://h/a`. -/
def denyRules : String → Bool := fun u => !(u == "http://h/a")

/-- Test fixture: the seed links to `http://h/a` (reachable but to be
robots-denied) and `http://h/b` (whose GET raises). -/
def webDeny : Web := fun s =>
  if s = "http://h/" then some ⟨[], [], ["http://h/a", "http://h/b"]⟩
  else if s = "http://h/a" then some ⟨[("wrd", none)], [], []⟩
  else none

/-- Test fixture: the seed links to `http://h/a` (whose GET raises) and
`http://h/b` (which succeeds), so a crawl must get past the failure. -/
def webCont : Web := fun s =>
  if s = "http://h/" then some ⟨[], [], ["http://h/a", "http://h/b"]⟩
  else if s = "http://h/b" then some ⟨[("teh", some "the")], ["http://h/broken.png"], []⟩
  else none

/-- Test fixture: a web on which every GET raises. -/
def webNone : Web := fun _ => none

/-! ### Lemmas about the submission loop (lines 131-138) -/

/-- The submission loop only ever grows the visited set. -/
theorem submitPhase_visited_subset (m w c : Nat) :
    ∀ (tv v b : List String), v ⊆ (submitPhase m w c v tv b).1 := by
  intro tv
  induction tv with
  | nil => intro v b; exact fun x hx => hx
  | cons url rest ih =>
    intro v b
    simp only [submitPhase]
    split
    · split
      · exact ih v b
      · exact fun x hx => ih (url :: v) (b ++ [url]) (List.mem_cons_of_mem _ hx)
    · exact fun x hx => hx

/-- The submission loop preserves distinctness of the visited set. -/
theorem submitPhase_visited_nodup (m w c : Nat) :
    ∀ (tv v b : List String), v.Nodup → (submitPhase m w c v tv b).1.Nodup := by
  intro tv
  induction tv with
  | nil => intro v b h; exact h
  | cons url rest ih =>
    intro v b h
    simp only [submitPhase]
    split
    · split
      · exact ih v b h
      · exact ih (url :: v) (b ++ [url]) (List.nodup_cons.mpr ⟨by assumption, h⟩)
    · exact h

/-- Each URL moved into the batch is also added to the visited set, so the
growth of both is in lockstep. -/
theorem submitPhase_length_id (m w c : Nat) :
    ∀ (tv v b : List String),
      (submitPhase m w c v tv b).1.length + b.length
        = v.length + (submitPhase m w c v tv b).2.2.length := by
  intro tv
  induction tv with
  | nil => intro v b; simp [submitPhase]
  | cons url rest ih =>
    intro v b
    simp only [submitPhase]
    split
    · split
      · exact ih v b
      · have := ih (url :: v) (b ++ [url])
        simp only [List.length_cons, List.length_append, List.length_cons,
          List.length_nil] at this ⊢
        omega
    · simp

/-- Popping never increases `len(visited) + len(to_visit)`. -/
theorem submitPhase_sum_le (m w c : Nat) :
    ∀ (tv v b : List String),
      (submitPhase m w c v tv b).1.length + (submitPhase m w c v tv b).2.1.length
        ≤ v.length + tv.length := by
  intro tv
  induction tv with
  | nil => intro v b; simp [submitPhase]
  | cons url rest ih =>
    intro v b
    simp only [submitPhase]
    split
    · split
      · have := ih v b
        simp only [List.length_cons]
        omega
      · have := ih (url :: v) (b ++ [url])
        simp only [List.length_cons] at this ⊢
        omega
    · simp

/-- The remaining frontier never gets longer. -/
theorem submitPhase_tv_le (m w c : Nat) :
    ∀ (tv v b : List String),
      (submitPhase m w c v tv b).2.1.length ≤ tv.length := by
  intro tv
  induction tv with
  | nil => intro v b; simp [submitPhase]
  | cons url rest ih =>
    intro v b
    simp only [submitPhase]
    split
    · split
      · have := ih v b
        simp only [List.length_cons]
        omega
      · have := ih (url :: v) (b ++ [url])
        simp only [List.length_cons]
        omega
    · simp

/-- While the guard of the inner loop holds, at least one URL is popped,
so the frontier strictly shrinks. -/
theorem submitPhase_pops (m w c : Nat) :
    ∀ (tv v b : List String), tv ≠ [] → b.length < w → c < m →
      (submitPhase m w c v tv b).2.1.length < tv.length := by
  intro tv
  cases tv with
  | nil => intro v b h; exact absurd rfl h
  | cons url rest =>
    intro v b _ hw hm
    simp only [submitPhase]
    rw [if_pos ⟨hw, hm⟩]
    split
    · have := submitPhase_tv_le m w c rest v b
      simp only [List.length_cons]
      omega
    · have := submitPhase_tv_le m w c rest (url :: v) (b ++ [url])
      simp only [List.length_cons]
      omega

/-- The batch only grows along the run of the submission loop. -/
theorem submitPhase_batch_extends (m w c : Nat) :
    ∀ (tv v b : List String), ∃ d, (submitPhase m w c v tv b).2.2 = b ++ d := by
  intro tv
  induction tv with
  | nil => intro v b; exact ⟨[], by simp [submitPhase]⟩
  | cons url rest ih =>
    intro v b
    simp only [submitPhase]
    split
    · split
      · exact ih v b
      · obtain ⟨d, hd⟩ := ih (url :: v) (b ++ [url])
        exact ⟨url :: d, by simp [hd]⟩
    · exact ⟨[], by simp⟩

/-- If the submission loop added nothing to the batch then it added
nothing to the visited set either. -/
theorem submitPhase_batch_eq (m w c : Nat) :
    ∀ (tv v b : List String),
      (submitPhase m w c v tv b).2.2 = b → (submitPhase m w c v tv b).1 = v := by
  intro tv
  induction tv with
  | nil => intro v b _; simp [submitPhase]
  | cons url rest ih =>
    intro v b
    simp only [submitPhase]
    split
    · split
      · exact ih v b
      · intro hb
        obtain ⟨d, hd⟩ := submitPhase_batch_extends m w c rest (url :: v) (b ++ [url])
        rw [hd] at hb
        have : b.length + (1 + d.length) = b.length := by
          have := congrArg List.length hb
          simp only [List.length_append, List.length_cons] at this
          omega
        omega
    · intro _; rfl

/-- Every URL in the final batch was either in the starting batch, or is
a URL that was not yet visited when popped and is now visited. -/
theorem submitPhase_batch_mem (m w c : Nat) :
    ∀ (tv v b : List String), ∀ x ∈ (submitPhase m w c v tv b).2.2,
      x ∈ b ∨ (x ∉ v ∧ x ∈ (submitPhase m w c v tv b).1) := by
  intro tv
  induction tv with
  | nil => intro v b x hx; simp only [submitPhase] at hx; exact Or.inl hx
  | cons url rest ih =>
    intro v b x
    simp only [submitPhase]
    split
    · split
      · intro hx
        exact ih v b x hx
      · rename_i hmem
        intro hx
        rcases ih (url :: v) (b ++ [url]) x hx with h | ⟨hnv, hv'⟩
        · rcases List.mem_append.mp h with h1 | h1
          · exact Or.inl h1
          · -- x = url, freshly popped
            have hxu : x = url := by simpa using h1
            subst hxu
            exact Or.inr ⟨hmem, submitPhase_visited_subset m w c rest (x :: v)
              (b ++ [x]) (List.mem_cons_self x v)⟩
        · exact Or.inr ⟨fun hxv => hnv (List.mem_cons_of_mem _ hxv), hv'⟩
    · intro hx
      exact Or.inl hx

/-- Batch distinctness: because a fresh URL is marked visited the moment
it is submitted, the batch stays duplicate-free and all of its members
end up in the visited set. -/
theorem submitPhase_batch_inv (m w c : Nat) :
    ∀ (tv v b : List String), b.Nodup → (∀ x ∈ b, x ∈ v) →
      (submitPhase m w c v tv b).2.2.Nodup ∧
        ∀ x ∈ (submitPhase m w c v tv b).2.2, x ∈ (submitPhase m w c v tv b).1 := by
  intro tv
  induction tv with
  | nil =>
    intro v b hb hbv
    simp only [submitPhase]
    exact ⟨hb, hbv⟩
  | cons url rest ih =>
    intro v b hb hbv
    simp only [submitPhase]
    split
    · split
      · exact ih v b hb hbv
      · rename_i hmem
        refine ih (url :: v) (b ++ [url]) ?_ ?_
        · have hub : url ∉ b := fun hub => hmem (hbv url hub)
          simp [List.nodup_append, hb, hub]
        · intro x hx
          rcases List.mem_append.mp hx with h1 | h1
          · exact List.mem_cons_of_mem _ (hbv x h1)
          · have hxu : x = url := by simpa using h1
            subst hxu
            exact List.mem_cons_self x v
    · exact ⟨hb, hbv⟩

/-! ### Lemmas about `process_page` -/

/-- The budget gate of lines 73-75. -/
theorem process_page_budget (web : Web) (rp : RobotsState) (base : String)
    (m : Nat) (v : List String) (c : Nat) (url : String) (h : m ≤ c) :
    process_page web rp base m v c url = ⟨none, [], c, none, false⟩ := by
  simp [process_page, h]

/-- The robots denial path of lines 78-79. -/
theorem process_page_denied (web : Web) (rp : RobotsState) (base : String)
    (m : Nat) (v : List String) (c : Nat) (url : String)
    (h1 : c < m) (h2 : can_fetch_url url rp = false) :
    process_page web rp base m v c url = ⟨some emptyResult, [], c, none, false⟩ := by
  simp [process_page, Nat.not_le.mpr h1, h2]

/-- The caught fetch exception of lines 108-111. -/
theorem process_page_error (web : Web) (rp : RobotsState) (base : String)
    (m : Nat) (v : List String) (c : Nat) (url : String)
    (h1 : c < m) (h2 : can_fetch_url url rp = true) (h3 : web url = none) :
    process_page web rp base m v c url = ⟨some emptyResult, [], c, none, true⟩ := by
  simp [process_page, Nat.not_le.mpr h1, h2, h3]

/-- The successful path of lines 81-106. -/
theorem process_page_success (web : Web) (rp : RobotsState) (base : String)
    (m : Nat) (v : List String) (c : Nat) (url : String) (pg : FetchedPage)
    (h1 : c < m) (h2 : can_fetch_url url rp = true) (h3 : web url = some pg) :
    process_page web rp base m v c url =
      ⟨some ⟨pg.spelling, pg.broken⟩,
        pg.links.filter (fun l => is_internal_link base l && decide (l ∉ v)),
        c + 1, some (progressLine (c + 1) m url), true⟩ := by
  simp [process_page, Nat.not_le.mpr h1, h2, h3]

/-- `process_page` never decreases the shared counter. -/
theorem process_page_count_mono (web : Web) (rp : RobotsState) (base : String)
    (m : Nat) (v : List String) (c : Nat) (url : String) :
    c ≤ (process_page web rp base m v c url).count := by
  unfold process_page
  split
  · exact Nat.le_refl c
  · split
    · exact Nat.le_refl c
    · split
      · exact Nat.le_refl c
      · exact Nat.le_succ c

/-- `process_page` increments the counter only below the budget, so the
counter never passes `max c m`. -/
theorem process_page_count_le (web : Web) (rp : RobotsState) (base : String)
    (m : Nat) (v : List String) (c : Nat) (url : String) :
    (process_page web rp base m v c url).count ≤ max c m := by
  unfold process_page
  split
  · exact le_max_left c m
  · rename_i h
    split
    · exact le_max_left c m
    · split
      · exact le_max_left c m
      · exact le_max_of_le_right (Nat.lt_of_not_le h)

/-- When the counter did not move, no links were discovered: only the
successful-fetch path returns links, and it always increments. -/
theorem process_page_count_eq (web : Web) (rp : RobotsState) (base : String)
    (m : Nat) (v : List String) (c : Nat) (url : String)
    (h : (process_page web rp base m v c url).count = c) :
    (process_page web rp base m v c url).new_links = [] := by
  revert h
  unfold process_page
  split
  · intro _; rfl
  · split
    · intro _; rfl
    · split
      · intro _; rfl
      · intro h
        simp at h

/-! ### Lemmas about the report-dict insertion -/

/-- Inserting grows the dict by at most one entry. -/
theorem dictInsert_length (r : List (String × PageResult)) (u : String)
    (x : PageResult) : (dictInsert r u x).length ≤ r.length + 1 := by
  unfold dictInsert
  split
  · simp
  · simp

/-- The membership test in `dictInsert` agrees with key membership. -/
theorem dictInsert_any_iff (r : List (String × PageResult)) (u : String) :
    (r.any fun p => p.1 = u) = true ↔ u ∈ reportKeys r := by
  simp [List.any_eq_true, reportKeys, List.mem_map]

/-- Assigning a fresh key appends the pair. -/
theorem dictInsert_not_mem (r : List (String × PageResult)) (u : String)
    (x : PageResult) (h : u ∉ reportKeys r) :
    dictInsert r u x = r ++ [(u, x)] := by
  unfold dictInsert
  rw [if_neg]
  intro hc
  exact h ((dictInsert_any_iff r u).mp hc)

/-- Assigning an existing key rewrites the value in place and leaves the
key sequence unchanged. -/
theorem dictInsert_mem_keys (r : List (String × PageResult)) (u : String)
    (x : PageResult) (h : u ∈ reportKeys r) :
    reportKeys (dictInsert r u x) = reportKeys r := by
  unfold dictInsert
  rw [if_pos ((dictInsert_any_iff r u).mpr h)]
  unfold reportKeys
  rw [List.map_map]
  apply List.map_congr_left
  intro p _
  by_cases hp : p.1 = u
  · simp [hp]
  · simp [hp]

/-- After any insertion the keys are the old keys plus possibly `u`. -/
theorem dictInsert_keys_sub (r : List (String × PageResult)) (u : String)
    (x : PageResult) :
    ∀ k ∈ reportKeys (dictInsert r u x), k ∈ reportKeys r ∨ k = u := by
  intro k hk
  by_cases h : u ∈ reportKeys r
  · rw [dictInsert_mem_keys r u x h] at hk
    exact Or.inl hk
  · rw [dictInsert_not_mem r u x h] at hk
    unfold reportKeys at hk
    rw [List.map_append] at hk
    rcases List.mem_append.mp hk with h1 | h1
    · exact Or.inl h1
    · simp at h1
      exact Or.inr h1

/-! ### Lemmas about the link-merge loop (lines 147-150) -/

/-- Each append happens only while `len(visited) + len(to_visit)` is below
`max_pages`, so any bound that dominates both the starting sum and
`max_pages` still holds afterwards. -/
theorem addNewLinks_le (m : Nat) (v : List String) :
    ∀ (ls tv : List String) (k : Nat), v.length + tv.length ≤ k → m ≤ k →
      v.length + (addNewLinks m v tv ls).length ≤ k := by
  intro ls
  induction ls with
  | nil => intro tv k h _; exact h
  | cons l rest ih =>
    intro tv k h hm
    simp only [addNewLinks]
    split
    · rename_i hc
      refine ih (tv ++ [l]) k ?_ hm
      simp only [List.length_append, List.length_cons, List.length_nil]
      omega
    · exact ih tv k h hm

/-- The merge loop never removes frontier entries. -/
theorem addNewLinks_len_ge (m : Nat) (v : List String) :
    ∀ (ls tv : List String), tv.length ≤ (addNewLinks m v tv ls).length := by
  intro ls
  induction ls with
  | nil => intro tv; exact Nat.le_refl _
  | cons l rest ih =>
    intro tv
    simp only [addNewLinks]
    split
    · have := ih (tv ++ [l])
      simp only [List.length_append, List.length_cons, List.length_nil] at this
      omega
    · exact ih tv

/-! ### Lemmas about the completion loop (lines 140-150) -/

/-- Handling a completed future never touches the visited set: it is only
written in the submission loop. -/
theorem stepPage_visited (web : Web) (rp : RobotsState) (base : String)
    (m : Nat) (st : CrawlState) (url : String) :
    (stepPage web rp base m st url).visited = st.visited := by
  unfold stepPage
  cases hr : (process_page web rp base m st.visited st.crawl_count url).result <;>
    simp [hr]

/-- The counter after handling one future is the counter `process_page`
returned. -/
theorem stepPage_count (web : Web) (rp : RobotsState) (base : String)
    (m : Nat) (st : CrawlState) (url : String) :
    (stepPage web rp base m st url).crawl_count
      = (process_page web rp base m st.visited st.crawl_count url).count := by
  unfold stepPage
  cases hr : (process_page web rp base m st.visited st.crawl_count url).result <;>
    simp [hr]

/-- Handling one future never decreases the counter. -/
theorem stepPage_count_mono (web : Web) (rp : RobotsState) (base : String)
    (m : Nat) (st : CrawlState) (url : String) :
    st.crawl_count ≤ (stepPage web rp base m st url).crawl_count := by
  rw [stepPage_count]
  exact process_page_count_mono web rp base m st.visited st.crawl_count url

/-- Handling one future keeps the counter at most `max` of its old value
and the budget. -/
theorem stepPage_count_le (web : Web) (rp : RobotsState) (base : String)
    (m : Nat) (st : CrawlState) (url : String) :
    (stepPage web rp base m st url).crawl_count ≤ max st.crawl_count m := by
  rw [stepPage_count]
  exact process_page_count_le web rp base m st.visited st.crawl_count url

/-- The headroom guard of line 149 preserves any bound dominating both
the current `len(visited) + len(to_visit)` and the budget. -/
theorem stepPage_sum_le (web : Web) (rp : RobotsState) (base : String)
    (m : Nat) (st : CrawlState) (url : String) (k : Nat)
    (h : st.visited.length + st.to_visit.length ≤ k) (hm : m ≤ k) :
    (stepPage web rp base m st url).visited.length
      + (stepPage web rp base m st url).to_visit.length ≤ k := by
  unfold stepPage
  cases hr : (process_page web rp base m st.visited st.crawl_count url).result with
  | none => simpa [hr] using h
  | some r =>
    simp only [hr]
    exact addNewLinks_le m st.visited _ st.to_visit k h hm

/-- Handling one future adds at most one report entry. -/
theorem stepPage_report_le (web : Web) (rp : RobotsState) (base : String)
    (m : Nat) (st : CrawlState) (url : String) :
    (stepPage web rp base m st url).report.length ≤ st.report.length + 1 := by
  unfold stepPage
  cases hr : (process_page web rp base m st.visited st.crawl_count url).result with
  | none => simp [hr]
  | some r =>
    simp only [hr]
    exact dictInsert_length st.report url r

/-- Handling one future either leaves the report keys unchanged or
appends exactly the handled URL, and appends it only when fresh. -/
theorem stepPage_keys (web : Web) (rp : RobotsState) (base : String)
    (m : Nat) (st : CrawlState) (url : String) :
    reportKeys (stepPage web rp base m st url).report = reportKeys st.report ∨
      (url ∉ reportKeys st.report ∧
        reportKeys (stepPage web rp base m st url).report
          = reportKeys st.report ++ [url]) := by
  unfold stepPage
  cases hr : (process_page web rp base m st.visited st.crawl_count url).result with
  | none => simp [hr]
  | some r =>
    simp only [hr]
    by_cases h : url ∈ reportKeys st.report
    · exact Or.inl (dictInsert_mem_keys st.report url r h)
    · refine Or.inr ⟨h, ?_⟩
      rw [dictInsert_not_mem st.report url r h]
      simp [reportKeys]

/-- A future that left the counter unchanged had no successful fetch, so
it discovered no links and left the frontier unchanged. -/
theorem stepPage_count_eq_tv (web : Web) (rp : RobotsState) (base : String)
    (m : Nat) (st : CrawlState) (url : String)
    (h : (stepPage web rp base m st url).crawl_count = st.crawl_count) :
    (stepPage web rp base m st url).to_visit = st.to_visit := by
  rw [stepPage_count] at h
  have hlinks := process_page_count_eq web rp base m st.visited st.crawl_count url h
  unfold stepPage
  cases hr : (process_page web rp base m st.visited st.crawl_count url).result with
  | none => simp [hr]
  | some r => simp [hr, hlinks, addNewLinks]

/-- Workers and merges never touch the visited set. -/
theorem processPhase_visited (web : Web) (rp : RobotsState) (base : String)
    (m : Nat) :
    ∀ (batch : List String) (st : CrawlState),
      (processPhase web rp base m st batch).visited = st.visited := by
  intro batch
  induction batch with
  | nil => intro st; rfl
  | cons url rest ih =>
    intro st
    simp only [processPhase]
    rw [ih]
    exact stepPage_visited web rp base m st url

/-- The shared counter never decreases across the completion loop. -/
theorem processPhase_count_mono (web : Web) (rp : RobotsState) (base : String)
    (m : Nat) :
    ∀ (batch : List String) (st : CrawlState),
      st.crawl_count ≤ (processPhase web rp base m st batch).crawl_count := by
  intro batch
  induction batch with
  | nil => intro st; exact Nat.le_refl _
  | cons url rest ih =>
    intro st
    simp only [processPhase]
    exact Nat.le_trans (stepPage_count_mono web rp base m st url) (ih _)

/-- The shared counter never passes `max` of its starting value and the
budget. -/
theorem processPhase_count_le (web : Web) (rp : RobotsState) (base : String)
    (m : Nat) :
    ∀ (batch : List String) (st : CrawlState),
      (processPhase web rp base m st batch).crawl_count ≤ max st.crawl_count m := by
  intro batch
  induction batch with
  | nil => intro st; exact le_max_left _ m
  | cons url rest ih =>
    intro st
    simp only [processPhase]
    refine Nat.le_trans (ih _) ?_
    rw [max_le_iff]
    exact ⟨stepPage_count_le web rp base m st url, le_max_right _ m⟩

/-- The headroom check keeps `len(visited) + len(to_visit)` below any
bound dominating the starting sum and the budget. -/
theorem processPhase_sum_le (web : Web) (rp : RobotsState) (base : String)
    (m : Nat) :
    ∀ (batch : List String) (st : CrawlState) (k : Nat),
      st.visited.length + st.to_visit.length ≤ k → m ≤ k →
      (processPhase web rp base m st batch).visited.length
        + (processPhase web rp base m st batch).to_visit.length ≤ k := by
  intro batch
  induction batch with
  | nil => intro st k h _; exact h
  | cons url rest ih =>
    intro st k h hm
    simp only [processPhase]
    refine ih _ k ?_ hm
    have hv := stepPage_visited web rp base m st url
    have := stepPage_sum_le web rp base m st url k h hm
    omega

/-- Each completed future adds at most one entry to the report map. -/
theorem processPhase_report_le (web : Web) (rp : RobotsState) (base : String)
    (m : Nat) :
    ∀ (batch : List String) (st : CrawlState),
      (processPhase web rp base m st batch).report.length
        ≤ st.report.length + batch.length := by
  intro batch
  induction batch with
  | nil => intro st; exact Nat.le_refl _
  | cons url rest ih =>
    intro st
    simp only [processPhase]
    refine Nat.le_trans (ih _) ?_
    have := stepPage_report_le web rp base m st url
    simp only [List.length_cons]
    omega

/-- New report keys only come from the batch being merged. -/
theorem processPhase_keys_sub (web : Web) (rp : RobotsState) (base : String)
    (m : Nat) :
    ∀ (batch : List String) (st : CrawlState),
      ∀ x ∈ reportKeys (processPhase web rp base m st batch).report,
        x ∈ reportKeys st.report ∨ x ∈ batch := by
  intro batch
  induction batch with
  | nil => intro st x hx; exact Or.inl hx
  | cons url rest ih =>
    intro st x
    simp only [processPhase]
    intro hx
    rcases ih _ x hx with h | h
    · rcases stepPage_keys web rp base m st url with hk | ⟨_, hk⟩
      · rw [hk] at h
        exact Or.inl h
      · rw [hk] at h
        rcases List.mem_append.mp h with h1 | h1
        · exact Or.inl h1
        · have : x = url := by simpa using h1
          subst this
          exact Or.inr (List.mem_cons_self _ _)
    · exact Or.inr (List.mem_cons_of_mem _ h)

/-- Merging a duplicate-free batch of URLs none of which is already a
report key keeps the key sequence duplicate-free. -/
theorem processPhase_keys_nodup (web : Web) (rp : RobotsState) (base : String)
    (m : Nat) :
    ∀ (batch : List String) (st : CrawlState),
      (reportKeys st.report).Nodup → batch.Nodup →
      (∀ x ∈ batch, x ∉ reportKeys st.report) →
      (reportKeys (processPhase web rp base m st batch).report).Nodup := by
  intro batch
  induction batch with
  | nil => intro st h _ _; exact h
  | cons url rest ih =>
    intro st hk hb hfresh
    have hbrest : rest.Nodup := (List.nodup_cons.mp hb).2
    have hurl : url ∉ rest := (List.nodup_cons.mp hb).1
    simp only [processPhase]
    rcases stepPage_keys web rp base m st url with hkeys | ⟨hu, hkeys⟩
    · refine ih _ ?_ hbrest ?_
      · rw [hkeys]; exact hk
      · intro x hx
        rw [hkeys]
        exact hfresh x (List.mem_cons_of_mem _ hx)
    · refine ih _ ?_ hbrest ?_
      · rw [hkeys]
        refine List.Nodup.append hk (List.nodup_singleton _) ?_
        intro a ha hb1
        have : a = url := by simpa using hb1
        subst this
        exact hu ha
      · intro x hx
        rw [hkeys]
        intro hmem
        rcases List.mem_append.mp hmem with h1 | h1
        · exact hfresh x (List.mem_cons_of_mem _ hx) h1
        · have : x = url := by simpa using h1
          subst this
          exact hurl hx

/-- A completion loop that leaves the counter unchanged had no successful
fetch and therefore leaves the frontier unchanged. -/
theorem processPhase_count_eq_tv (web : Web) (rp : RobotsState) (base : String)
    (m : Nat) :
    ∀ (batch : List String) (st : CrawlState),
      (processPhase web rp base m st batch).crawl_count = st.crawl_count →
      (processPhase web rp base m st batch).to_visit = st.to_visit := by
  intro batch
  induction batch with
  | nil => intro st _; rfl
  | cons url rest ih =>
    intro st hcount
    simp only [processPhase] at hcount ⊢
    have h1 := stepPage_count_mono web rp base m st url
    have h2 := processPhase_count_mono web rp base m rest (stepPage web rp base m st url)
    have hstep : (stepPage web rp base m st url).crawl_count = st.crawl_count := by
      omega
    rw [ih _ (by omega)]
    exact stepPage_count_eq_tv web rp base m st url hstep

/-! ### Lemmas about one outer iteration and the outer loop -/

/-- The visited set after a batch is exactly what the submission loop
left, the completion loop never writing it. -/
theorem runBatch_visited_eq (web : Web) (rp : RobotsState) (base : String)
    (m w : Nat) (st : CrawlState) :
    (runBatch web rp base m w st).visited
      = (submitPhase m w st.crawl_count st.visited st.to_visit []).1 := by
  simp only [runBatch]
  rw [processPhase_visited]

/-- One outer iteration only grows the visited set. -/
theorem runBatch_visited_subset (web : Web) (rp : RobotsState) (base : String)
    (m w : Nat) (st : CrawlState) :
    st.visited ⊆ (runBatch web rp base m w st).visited := by
  rw [runBatch_visited_eq]
  exact submitPhase_visited_subset m w st.crawl_count st.to_visit st.visited []

/-- One outer iteration preserves distinctness of the visited set. -/
theorem runBatch_visited_nodup (web : Web) (rp : RobotsState) (base : String)
    (m w : Nat) (st : CrawlState) (h : st.visited.Nodup) :
    (runBatch web rp base m w st).visited.Nodup := by
  rw [runBatch_visited_eq]
  exact submitPhase_visited_nodup m w st.crawl_count st.to_visit st.visited [] h

/-- One outer iteration never decreases the shared counter. -/
theorem runBatch_count_mono (web : Web) (rp : RobotsState) (base : String)
    (m w : Nat) (st : CrawlState) :
    st.crawl_count ≤ (runBatch web rp base m w st).crawl_count := by
  simp only [runBatch]
  exact processPhase_count_mono web rp base m
    (submitPhase m w st.crawl_count st.visited st.to_visit []).2.2
    { st with
      visited := (submitPhase m w st.crawl_count st.visited st.to_visit []).1
      to_visit := (submitPhase m w st.crawl_count st.visited st.to_visit []).2.1 }

/-- One outer iteration keeps the counter at most `max` of its old value
and the budget. -/
theorem runBatch_count_le (web : Web) (rp : RobotsState) (base : String)
    (m w : Nat) (st : CrawlState) :
    (runBatch web rp base m w st).crawl_count ≤ max st.crawl_count m := by
  simp only [runBatch]
  exact processPhase_count_le web rp base m
    (submitPhase m w st.crawl_count st.visited st.to_visit []).2.2
    { st with
      visited := (submitPhase m w st.crawl_count st.visited st.to_visit []).1
      to_visit := (submitPhase m w st.crawl_count st.visited st.to_visit []).2.1 }

/-- One outer iteration keeps `len(visited) + len(to_visit)` below any
bound dominating the starting sum and the budget. -/
theorem runBatch_sum_le (web : Web) (rp : RobotsState) (base : String)
    (m w : Nat) (st : CrawlState) (k : Nat)
    (hsum : st.visited.length + st.to_visit.length ≤ k) (hm : m ≤ k) :
    (runBatch web rp base m w st).visited.length
      + (runBatch web rp base m w st).to_visit.length ≤ k := by
  simp only [runBatch]
  refine processPhase_sum_le web rp base m _ _ k ?_ hm
  exact Nat.le_trans
    (submitPhase_sum_le m w st.crawl_count st.to_visit st.visited []) hsum

/-- Preservation of the crawl invariant by one outer iteration. -/
theorem runBatch_GInv (web : Web) (rp : RobotsState) (base : String)
    (m w : Nat) (v0 : List String) (st : CrawlState) (hG : GInv m v0 st) :
    GInv m v0 (runBatch web rp base m w st) := by
  obtain ⟨hnd, hv0, hsum, hkv, hknd, hkv0, hrl⟩ := hG
  have hbinv := submitPhase_batch_inv m w st.crawl_count st.to_visit st.visited []
    List.nodup_nil (by intro x hx; cases hx)
  have hbmem := submitPhase_batch_mem m w st.crawl_count st.to_visit st.visited []
  have hbfreshv : ∀ x ∈ (submitPhase m w st.crawl_count st.visited st.to_visit []).2.2,
      x ∉ st.visited := by
    intro x hx
    rcases hbmem x hx with h | h
    · cases h
    · exact h.1
  have hkeys_sub := processPhase_keys_sub web rp base m
    (submitPhase m w st.crawl_count st.visited st.to_visit []).2.2
    { st with
      visited := (submitPhase m w st.crawl_count st.visited st.to_visit []).1
      to_visit := (submitPhase m w st.crawl_count st.visited st.to_visit []).2.1 }
  refine ⟨?_, ?_, ?_, ?_, ?_, ?_, ?_⟩
  · exact runBatch_visited_nodup web rp base m w st hnd
  · exact fun x hx => runBatch_visited_subset web rp base m w st (hv0 hx)
  · exact runBatch_sum_le web rp base m w st _ hsum (le_max_right _ _)
  · -- report keys are visited
    intro k hk
    rw [runBatch_visited_eq]
    rcases hkeys_sub k hk with h | h
    · exact submitPhase_visited_subset m w st.crawl_count st.to_visit st.visited []
        (hkv k h)
    · exact hbinv.2 k h
  · -- report keys stay duplicate-free
    simp only [runBatch]
    refine processPhase_keys_nodup web rp base m _ _ hknd hbinv.1 ?_
    intro x hx hxk
    exact hbfreshv x hx (hkv x hxk)
  · -- report keys avoid the initial visited set
    intro k hk
    rcases hkeys_sub k hk with h | h
    · exact hkv0 k h
    · exact fun hkv0mem => hbfreshv k h (hv0 hkv0mem)
  · -- the report cannot outgrow the fresh part of the visited set
    have hlen := submitPhase_length_id m w st.crawl_count st.to_visit st.visited []
    have hveq := runBatch_visited_eq web rp base m w st
    have hfin : (runBatch web rp base m w st).report.length
        ≤ st.report.length
          + (submitPhase m w st.crawl_count st.visited st.to_visit []).2.2.length := by
      simp only [runBatch]
      exact processPhase_report_le web rp base m
        (submitPhase m w st.crawl_count st.visited st.to_visit []).2.2
        { st with
          visited := (submitPhase m w st.crawl_count st.visited st.to_visit []).1
          to_visit := (submitPhase m w st.crawl_count st.visited st.to_visit []).2.1 }
    rw [hveq]
    simp only [List.length_nil] at hlen
    omega

/-- Strict decrease of the termination measure across one guarded outer
iteration: either no fresh URL was submitted and the frontier strictly
shrank, or the visited set strictly grew while the sum bound kept the
frontier in check. -/
theorem runBatch_measure (web : Web) (rp : RobotsState) (base : String)
    (m w : Nat) (st : CrawlState) (M : Nat) (hw : 0 < w)
    (htv : st.to_visit ≠ []) (hc : st.crawl_count < m)
    (hsum : st.visited.length + st.to_visit.length ≤ M) (hm : m ≤ M) :
    loopMeasure M (runBatch web rp base m w st) < loopMeasure M st := by
  have hpops := submitPhase_pops m w st.crawl_count st.to_visit st.visited []
    htv (by simpa using hw) hc
  cases hb : (submitPhase m w st.crawl_count st.visited st.to_visit []).2.2 with
  | nil =>
    have hveq := submitPhase_batch_eq m w st.crawl_count st.to_visit st.visited [] hb
    unfold loopMeasure
    simp only [runBatch, hb, processPhase]
    rw [hveq]
    omega
  | cons u bs =>
    have hlen := submitPhase_length_id m w st.crawl_count st.to_visit st.visited []
    have hblen : 0 < (submitPhase m w st.crawl_count st.visited st.to_visit []).2.2.length := by
      rw [hb]; simp
    have hveq := runBatch_visited_eq web rp base m w st
    have hsum' := runBatch_sum_le web rp base m w st M hsum hm
    unfold loopMeasure
    rw [hveq]
    set a := (submitPhase m w st.crawl_count st.visited st.to_visit []).1.length with ha
    rw [hveq] at hsum'
    simp only [List.length_nil] at hlen
    -- a ≥ |visited| + 1 and a + |to_visit'| ≤ M
    have hge : st.visited.length + 1 ≤ a := by omega
    have haM : a ≤ M := by omega
    have h1 : (runBatch web rp base m w st).to_visit.length ≤ M - a := by omega
    have h2 : M - a + 1 ≤ M - st.visited.length := by omega
    have hdM : M - a ≤ M := Nat.sub_le _ _
    calc (M - a) * (M + 1) + (runBatch web rp base m w st).to_visit.length
        ≤ (M - a) * (M + 1) + (M - a) := by omega
      _ < (M - a + 1) * (M + 1) := by
          rw [Nat.succ_mul]
          omega
      _ ≤ (M - st.visited.length) * (M + 1) := mul_le_mul_right' h2 (M + 1)
      _ ≤ (M - st.visited.length) * (M + 1) + st.to_visit.length :=
          Nat.le_add_right _ _

/-- The loop is the identity when its guard is already false. -/
theorem crawlLoop_not_guard (web : Web) (rp : RobotsState) (base : String)
    (m w fuel : Nat) (st : CrawlState)
    (h : ¬(st.to_visit ≠ [] ∧ st.crawl_count < m)) :
    crawlLoop web rp base m w fuel st = st := by
  cases fuel with
  | zero => rfl
  | succ f => simp only [crawlLoop]; rw [if_neg h]

/-- One guarded unfolding of the loop. -/
theorem crawlLoop_guard_step (web : Web) (rp : RobotsState) (base : String)
    (m w f : Nat) (st : CrawlState)
    (h : st.to_visit ≠ [] ∧ st.crawl_count < m) :
    crawlLoop web rp base m w (f + 1) st
      = crawlLoop web rp base m w f (runBatch web rp base m w st) := by
  simp only [crawlLoop]; rw [if_pos h]

/-- Any property preserved by one outer iteration is preserved by the
whole loop. -/
theorem crawlLoop_inv (web : Web) (rp : RobotsState) (base : String)
    (m w : Nat) (P : CrawlState → Prop)
    (hP : ∀ s, P s → P (runBatch web rp base m w s)) :
    ∀ (fuel : Nat) (st : CrawlState), P st → P (crawlLoop web rp base m w fuel st) := by
  intro fuel
  induction fuel with
  | zero => intro st h; exact h
  | succ f ih =>
    intro st h
    simp only [crawlLoop]
    split
    · exact ih _ (hP _ h)
    · exact h

/-- The loop only grows the visited set. -/
theorem crawlLoop_visited_subset (web : Web) (rp : RobotsState) (base : String)
    (m w : Nat) :
    ∀ (fuel : Nat) (st : CrawlState),
      st.visited ⊆ (crawlLoop web rp base m w fuel st).visited := by
  intro fuel
  induction fuel with
  | zero => intro st x hx; exact hx
  | succ f ih =>
    intro st
    simp only [crawlLoop]
    split
    · exact fun x hx => ih _ (runBatch_visited_subset web rp base m w st hx)
    · exact fun x hx => hx

/-- Termination: with fuel exceeding the measure, the loop halts with its
guard false — the frontier is drained or the budget is saturated. -/
theorem crawlLoop_exit (web : Web) (rp : RobotsState) (base : String)
    (m w M : Nat) (hw : 0 < w) (hm : m ≤ M) :
    ∀ (fuel : Nat) (st : CrawlState),
      st.visited.length + st.to_visit.length ≤ M → loopMeasure M st < fuel →
      (crawlLoop web rp base m w fuel st).to_visit = [] ∨
        m ≤ (crawlLoop web rp base m w fuel st).crawl_count := by
  intro fuel
  induction fuel with
  | zero => intro st _ h; omega
  | succ f ih =>
    intro st hsum hmea
    simp only [crawlLoop]
    split
    · rename_i hguard
      refine ih _ (runBatch_sum_le web rp base m w st M hsum hm) ?_
      have := runBatch_measure web rp base m w st M hw hguard.1 hguard.2 hsum hm
      omega
    · rename_i hguard
      push_neg at hguard
      by_cases htv : st.to_visit = []
      · exact Or.inl htv
      · exact Or.inr (hguard htv)

/-- The invariant holds on entry to the loop whenever the global visited
set is duplicate-free (a Python `set` always is). -/
theorem GInv_init (m : Nat) (base : String) (v0 : List String) (c0 : Nat)
    (h : v0.Nodup) : GInv m v0 (initState base v0 c0) := by
  refine ⟨h, fun x hx => hx, ?_, ?_, ?_, ?_, ?_⟩
  · simp only [initState, List.length_cons, List.length_nil]
    exact le_max_left _ _
  · intro k hk
    simp [initState, reportKeys] at hk
  · simp [initState, reportKeys]
  · intro k hk
    simp [initState, reportKeys] at hk
  · simp [initState]

/-- The invariant holds of the final state of every crawl run. -/
theorem crawl_GInv (web : Web) (rfo : RobotsFetch) (base : String)
    (m w : Nat) (v0 : List String) (c0 : Nat) (h : v0.Nodup) :
    GInv m v0 (crawl web rfo base m w v0 c0) :=
  crawlLoop_inv web (rpAfterRead rfo) base m w (GInv m v0)
    (fun s hs => runBatch_GInv web (rpAfterRead rfo) base m w v0 s hs) _ _
    (GInv_init m base v0 c0 h)

/-- The first outer iteration of a fresh crawl whose seed GET raises (or
is denied): the seed is popped and marked visited, its empty result is
recorded, no link is discovered and the counter stays put. -/
theorem runBatch_init_unreachable (web : Web) (rp : RobotsState) (base : String)
    (m w : Nat) (hm : 0 < m) (hw : 0 < w) (hnone : web base = none) :
    (runBatch web rp base m w (initState base [] 0)).report = [(base, emptyResult)] ∧
    (runBatch web rp base m w (initState base [] 0)).to_visit = [] := by
  have hsubmit : submitPhase m w 0 [] [base] [] = ([base], [], [base]) := by
    simp [submitPhase, hw, hm]
  cases hcf : can_fetch_url base rp with
  | false =>
    constructor <;>
      simp [runBatch, initState, hsubmit, processPhase, stepPage,
        process_page, hcf, hnone, dictInsert, addNewLinks,
        (show ¬ m ≤ 0 by omega)]
  | true =>
    constructor <;>
      simp [runBatch, initState, hsubmit, processPhase, stepPage,
        process_page, hcf, hnone, dictInsert, addNewLinks,
        (show ¬ m ≤ 0 by omega)]

/-- A fresh crawl whose seed GET raises halts after one iteration with a
single empty-result report entry, for any positive fuel. -/
theorem crawlLoop_init_unreachable (web : Web) (rp : RobotsState) (base : String)
    (m w : Nat) (hm : 0 < m) (hw : 0 < w) (hnone : web base = none) :
    ∀ fuel, 0 < fuel →
      (crawlLoop web rp base m w fuel (initState base [] 0)).report
        = [(base, emptyResult)] := by
  intro fuel hfuel
  obtain ⟨f, rfl⟩ : ∃ f, fuel = f + 1 := ⟨fuel - 1, by omega⟩
  obtain ⟨hrep, htv⟩ := runBatch_init_unreachable web rp base m w hm hw hnone
  rw [crawlLoop_guard_step web rp base m w f (initState base [] 0)
    ⟨by simp [initState], by simpa [initState] using hm⟩]
  rw [crawlLoop_not_guard web rp base m w f _ (fun hcon => hcon.1 htv)]
  exact hrep

/-! ### Claim theorems -/

/-- C1: for every crawl run with a positive `max_pages`, the report map
returned by `crawl(base_url, max_pages, max_workers)` contains at most
`max_pages` entries — at every batch boundary of the loop (any fuel
prefix; within a batch the report only grows towards the next boundary)
and at return. -/
theorem c1_budget_bound (web : Web) (rfo : RobotsFetch) (base : String)
    (m w : Nat) (hm : 1 ≤ m) :
    (∀ fuel, (crawlLoop web (rpAfterRead rfo) base m w fuel
        (initState base [] 0)).report.length ≤ m) ∧
    (crawl web rfo base m w [] 0).report.length ≤ m := by
  have key : ∀ fuel, GInv m [] (crawlLoop web (rpAfterRead rfo) base m w fuel
      (initState base [] 0)) := fun fuel =>
    crawlLoop_inv web (rpAfterRead rfo) base m w (GInv m [])
      (fun s hs => runBatch_GInv web (rpAfterRead rfo) base m w [] s hs) fuel _
      (GInv_init m base [] 0 List.nodup_nil)
  have bound : ∀ fuel, (crawlLoop web (rpAfterRead rfo) base m w fuel
      (initState base [] 0)).report.length ≤ m := by
    intro fuel
    obtain ⟨-, -, hsum, -, -, -, hrl⟩ := key fuel
    simp only [List.length_nil] at hsum hrl
    rw [Nat.zero_add, Nat.max_eq_right hm] at hsum
    omega
  exact ⟨bound, bound _⟩

/-- C1 witness: a concrete run under budget 5 has at most 5 entries. -/
theorem c1_budget_bound_witness :
    (crawl webFrag allowAllRobots "http://h/" 5 5 [] 0).report.length ≤ 5 :=
  (c1_budget_bound webFrag allowAllRobots "http://h/" 5 5 (by decide)).2

/-- C2 counterexample: the claim that every Frontier member is a
VisitedSet member fails at concrete points of a concrete crawl — at the
start the seed is enqueued but not visited, and after the first outer
iteration the discovered link `http://h/p` sits in `to_visit` while not
in `visited`. -/
theorem c2_frontier_not_visited_counterexample :
    ("http://h/p" ∈ (crawlLoop webFrag (rpAfterRead allowAllRobots) "http://h/" 5 5 1
        (initState "http://h/" [] 0)).to_visit ∧
      "http://h/p" ∉ (crawlLoop webFrag (rpAfterRead allowAllRobots) "http://h/" 5 5 1
        (initState "http://h/" [] 0)).visited) ∧
    ("http://h/" ∈ (initState "http://h/" [] 0).to_visit ∧
      "http://h/" ∉ (initState "http://h/" [] 0).visited) := by
  decide

/-- C2 amended: the containment that actually holds runs the other way
round: every report-map key is in the visited set (at every batch
boundary and at return); a URL — the seed included — enters the visited
set only when it is dequeued for dispatch, and a discovered link is
appended to the Frontier precisely when it is not yet visited. -/
theorem c2_report_keys_visited (web : Web) (rfo : RobotsFetch) (base : String)
    (m w : Nat) :
    (∀ fuel, ∀ k ∈ reportKeys (crawlLoop web (rpAfterRead rfo) base m w fuel
        (initState base [] 0)).report,
      k ∈ (crawlLoop web (rpAfterRead rfo) base m w fuel (initState base [] 0)).visited) ∧
    (∀ k ∈ reportKeys (crawl web rfo base m w [] 0).report,
      k ∈ (crawl web rfo base m w [] 0).visited) := by
  have key : ∀ fuel, GInv m [] (crawlLoop web (rpAfterRead rfo) base m w fuel
      (initState base [] 0)) := fun fuel =>
    crawlLoop_inv web (rpAfterRead rfo) base m w (GInv m [])
      (fun s hs => runBatch_GInv web (rpAfterRead rfo) base m w [] s hs) fuel _
      (GInv_init m base [] 0 List.nodup_nil)
  exact ⟨fun fuel => (key fuel).2.2.2.1, (key _).2.2.2.1⟩

/-- C3: for every seed, positive `max_pages` and positive `max_workers`,
the crawl halts with its loop guard false (frontier drained or budget
saturated) within the computed fuel; every guarded outer iteration
either strictly shrinks the Frontier or strictly increases the counter;
and an unreachable seed yields the single empty-result report entry
rather than an error. -/
theorem c3_termination (web : Web) (rfo : RobotsFetch) (base : String)
    (m w : Nat) (hm : 1 ≤ m) (hw : 1 ≤ w) :
    ((crawl web rfo base m w [] 0).to_visit = [] ∨
      m ≤ (crawl web rfo base m w [] 0).crawl_count) ∧
    (∀ st : CrawlState, st.to_visit ≠ [] → st.crawl_count < m →
      ((runBatch web (rpAfterRead rfo) base m w st).to_visit.length
          < st.to_visit.length ∨
        st.crawl_count < (runBatch web (rpAfterRead rfo) base m w st).crawl_count)) ∧
    (web base = none →
      (crawl web rfo base m w [] 0).report = [(base, emptyResult)]) := by
  refine ⟨?_, ?_, ?_⟩
  · have hexit := crawlLoop_exit web (rpAfterRead rfo) base m w (max 1 m) hw
      (le_max_right 1 m) ((max 1 m + 1) * (max 1 m + 1)) (initState base [] 0)
      (by simp only [initState, List.length_nil, List.length_cons, Nat.zero_add]
          exact le_max_left 1 m)
      (by
        have hco : (max 1 m + 1) * (max 1 m + 1)
            = max 1 m * (max 1 m + 1) + (max 1 m + 1) := by ring
        have h1 : 1 ≤ max 1 m := le_max_left 1 m
        simp only [loopMeasure, initState, List.length_nil, List.length_cons,
          Nat.sub_zero]
        omega)
    exact hexit
  · intro st htv hc
    by_cases hcount : (runBatch web (rpAfterRead rfo) base m w st).crawl_count
        = st.crawl_count
    · left
      have hsh := submitPhase_pops m w st.crawl_count st.to_visit st.visited []
        htv (by simpa using hw) hc
      have heq := processPhase_count_eq_tv web (rpAfterRead rfo) base m
        (submitPhase m w st.crawl_count st.visited st.to_visit []).2.2
        { st with
          visited := (submitPhase m w st.crawl_count st.visited st.to_visit []).1
          to_visit := (submitPhase m w st.crawl_count st.visited st.to_visit []).2.1 }
        (by simpa [runBatch] using hcount)
      have hfin : (runBatch web (rpAfterRead rfo) base m w st).to_visit
          = (submitPhase m w st.crawl_count st.visited st.to_visit []).2.1 := by
        simp only [runBatch]
        rw [heq]
      rw [hfin]
      exact hsh
    · right
      exact Nat.lt_of_le_of_ne (runBatch_count_mono web (rpAfterRead rfo) base m w st)
        (fun h => hcount h.symm)
  · intro hnone
    exact crawlLoop_init_unreachable web (rpAfterRead rfo) base m w hm hw hnone _
      (Nat.mul_pos (Nat.succ_pos _) (Nat.succ_pos _))

/-- C3 witness: a concrete crawl of an unreachable seed halts with the
frontier drained and a single empty-result entry. -/
theorem c3_termination_witness :
    ((crawl webNone allowAllRobots "http://h/" 3 2 [] 0).to_visit = [] ∨
      3 ≤ (crawl webNone allowAllRobots "http://h/" 3 2 [] 0).crawl_count) ∧
    (crawl webNone allowAllRobots "http://h/" 3 2 [] 0).report
      = [("http://h/", emptyResult)] :=
  ⟨(c3_termination webNone allowAllRobots "http://h/" 3 2 (by decide) (by decide)).1,
    (c3_termination webNone allowAllRobots "http://h/" 3 2 (by decide) (by decide)).2.2 rfl⟩

/-- C4: the claim of fail-open robots handling is what the code intends
but not what it does.  When the robots.txt download raises a non-HTTP
error, `rp.read()` propagates into the bare `except: pass` of `crawl`
and the parser is left unread with `last_checked = 0`; CPython's
`can_fetch` then returns `False` for every URL, so a concrete site whose
pages are all reachable gets zero page GETs and only empty report
entries, while the same crawl under a permissive robots.txt fetches all
three pages: fail-closed, the opposite of the claim. -/
theorem c4_robots_unreachable_denies_all :
    (∀ url, can_fetch_url url (rpAfterRead RobotsFetch.netError) = false) ∧
    (crawl webFrag RobotsFetch.netError "http://h/" 5 5 [] 0).fetched = [] ∧
    (crawl webFrag RobotsFetch.netError "http://h/" 5 5 [] 0).report
      = [("http://h/", emptyResult)] ∧
    (crawl webFrag allowAllRobots "http://h/" 5 5 [] 0).fetched
      = ["http://h/", "http://h/p", "http://h/p#x"] := by
  refine ⟨fun url => rfl, ?_, ?_, ?_⟩ <;> decide

/-- C5 counterexample: the internal-link test is not the claimed
case-insensitive comparison.  `urlparse(...).netloc` keeps the case it
was given and line 27 compares with `==`, so a candidate whose host
differs from the base host only in case is classified external, while
the claim says internal. -/
theorem c5_case_insensitive_counterexample :
    ¬ (is_internal_link "http://example.com/" "http://EXAMPLE.com/a" = true ↔
        (netloc "http://EXAMPLE.com/a" = "" ∨
          asciiLower (netloc "http://EXAMPLE.com/a")
            = asciiLower (netloc "http://example.com/"))) := by
  decide

/-- C5 amended: the internal-link test returns true iff the candidate's
netloc is empty or equals the base URL's netloc by exact, case-sensitive
string comparison (and no subdomain matching). -/
theorem c5_internal_link_iff (base_url link : String) :
    is_internal_link base_url link = true ↔
      (netloc link = "" ∨ netloc link = netloc base_url) := by
  simp [is_internal_link]

/-- C6 counterexample: two URLs that differ only in their fragment are
not identified — a concrete crawl whose seed page links to `http://h/p`
and `http://h/p#x` dispatches (fetches) both and keys both in the
report, where the claim says at most one of them is ever dispatched or
keyed. -/
theorem c6_fragment_counterexample :
    "http://h/p" ∈ reportKeys (crawl webFrag allowAllRobots "http://h/" 5 5 [] 0).report ∧
    "http://h/p#x" ∈ reportKeys (crawl webFrag allowAllRobots "http://h/" 5 5 [] 0).report ∧
    "http://h/p" ∈ (crawl webFrag allowAllRobots "http://h/" 5 5 [] 0).fetched ∧
    "http://h/p#x" ∈ (crawl webFrag allowAllRobots "http://h/" 5 5 [] 0).fetched := by
  decide

/-- C6 amended: CrawlTarget identity is the exact absolute URL string
produced by `urljoin`, fragment preserved: fragment variants are
distinct targets, each dispatched and keyed separately, and it is with
respect to this exact-string identity that each target is keyed at most
once (report keys are always duplicate-free). -/
theorem c6_exact_string_identity (web : Web) (rfo : RobotsFetch)
    (base : String) (m w : Nat) :
    (reportKeys (crawl web rfo base m w [] 0).report).Nodup ∧
    reportKeys (crawl webFrag allowAllRobots "http://h/" 5 5 [] 0).report
      = ["http://h/", "http://h/p", "http://h/p#x"] := by
  constructor
  · exact (crawl_GInv web rfo base m w [] 0 List.nodup_nil).2.2.2.2.1
  · decide

/-- C7: whenever the budget allows and robots permit but the page GET
raises, `process_page` returns the empty result — no spelling issues, no
broken links — with an empty discovered-links list and no counter
increment; the exception is swallowed, and a concrete crawl one of whose
pages raises still processes the remaining pages. -/
theorem c7_fetch_error_empty_result :
    (∀ (web : Web) (rp : RobotsState) (base : String) (m : Nat)
        (v : List String) (c : Nat) (url : String),
      c < m → can_fetch_url url rp = true → web url = none →
      process_page web rp base m v c url = ⟨some emptyResult, [], c, none, true⟩) ∧
    (crawl webCont allowAllRobots "http://h/" 5 5 [] 0).report
      = [("http://h/", ⟨[], []⟩),
         ("http://h/a", emptyResult),
         ("http://h/b", ⟨[("teh", some "the")], ["http://h/broken.png"]⟩)] := by
  refine ⟨?_, by decide⟩
  intro web rp base m v c url h1 h2 h3
  exact process_page_error web rp base m v c url h1 h2 h3

/-- C7 witness: the general part applied to a concrete raising GET. -/
theorem c7_fetch_error_witness :
    process_page webNone (rpAfterRead allowAllRobots) "http://h/" 5 [] 0 "http://h/"
      = ⟨some emptyResult, [], 0, none, true⟩ :=
  c7_fetch_error_empty_result.1 webNone (rpAfterRead allowAllRobots) "http://h/" 5 [] 0
    "http://h/" (by decide) (by decide) rfl

/-- C8: invoking `crawl` with `max_pages = 0` returns an empty report
map and performs no page GET at all (the robots.txt download is outside
the loop and may still occur): the outer guard `crawl_count < 0` is
false immediately, for any starting globals. -/
theorem c8_zero_budget (web : Web) (rfo : RobotsFetch) (base : String)
    (w : Nat) (v0 : List String) (c0 : Nat) :
    (crawl web rfo base 0 w v0 c0).report = [] ∧
    (crawl web rfo base 0 w v0 c0).fetched = [] := by
  have h : crawl web rfo base 0 w v0 c0 = initState base v0 c0 :=
    crawlLoop_not_guard web (rpAfterRead rfo) base 0 w _ (initState base v0 c0)
      (fun hcon => Nat.not_lt_zero _ hcon.2)
  rw [h]
  exact ⟨rfl, rfl⟩

/-- C9: a robots-denied page and a page whose GET raises each still
produce a non-`None` empty result — so they are inserted into the
report map and counted by the exported `Total Pages Crawled` — while
`crawl_count` is not incremented for them and no progress line is
printed for them; a concrete crawl with one denied and one raising page
shows all of this end to end. -/
theorem c9_denied_and_error_pages_counted :
    (∀ (web : Web) (rp : RobotsState) (base : String) (m : Nat)
        (v : List String) (c : Nat) (url : String),
      c < m → can_fetch_url url rp = false →
      process_page web rp base m v c url = ⟨some emptyResult, [], c, none, false⟩) ∧
    (∀ (web : Web) (rp : RobotsState) (base : String) (m : Nat)
        (v : List String) (c : Nat) (url : String),
      c < m → can_fetch_url url rp = true → web url = none →
      process_page web rp base m v c url = ⟨some emptyResult, [], c, none, true⟩) ∧
    ((crawl webDeny (RobotsFetch.success denyRules) "http://h/" 5 5 [] 0).report
        = [("http://h/", ⟨[], []⟩),
           ("http://h/a", emptyResult),
           ("http://h/b", emptyResult)] ∧
      total_pages (crawl webDeny (RobotsFetch.success denyRules) "http://h/" 5 5 [] 0).report
        = 3 ∧
      (crawl webDeny (RobotsFetch.success denyRules) "http://h/" 5 5 [] 0).crawl_count = 1 ∧
      (crawl webDeny (RobotsFetch.success denyRules) "http://h/" 5 5 [] 0).progress
        = [progressLine 1 5 "http://h/"]) := by
  refine ⟨?_, ?_, by decide⟩
  · intro web rp base m v c url h1 h2
    exact process_page_denied web rp base m v c url h1 h2
  · intro web rp base m v c url h1 h2 h3
    exact process_page_error web rp base m v c url h1 h2 h3

/-- C9 witness: the denied-page part applied to a concrete denied URL. -/
theorem c9_denied_witness :
    process_page webDeny (rpAfterRead (RobotsFetch.success denyRules)) "http://h/" 5
        [] 0 "http://h/a"
      = ⟨some emptyResult, [], 0, none, false⟩ :=
  c9_denied_and_error_pages_counted.1 webDeny
    (rpAfterRead (RobotsFetch.success denyRules)) "http://h/" 5 [] 0 "http://h/a"
    (by decide) (by decide)

/-- C10: `visited` and `crawl_count` are process-wide globals that
`crawl` never resets, so a second call with identical arguments differs
from the first: no URL visited by the first run can be a report key of
the second, and when the first run saturated the budget the second
returns an empty report map. -/
theorem c10_globals_not_reset (web : Web) (rfo : RobotsFetch) (base : String)
    (m w : Nat) :
    (∀ k ∈ reportKeys (crawl web rfo base m w
        (crawl web rfo base m w [] 0).visited
        (crawl web rfo base m w [] 0).crawl_count).report,
      k ∉ (crawl web rfo base m w [] 0).visited) ∧
    (m ≤ (crawl web rfo base m w [] 0).crawl_count →
      (crawl web rfo base m w
        (crawl web rfo base m w [] 0).visited
        (crawl web rfo base m w [] 0).crawl_count).report = []) := by
  have hnd : (crawl web rfo base m w [] 0).visited.Nodup :=
    (crawl_GInv web rfo base m w [] 0 List.nodup_nil).1
  constructor
  · exact (crawl_GInv web rfo base m w
      (crawl web rfo base m w [] 0).visited
      (crawl web rfo base m w [] 0).crawl_count hnd).2.2.2.2.2.1
  · intro hsat
    have h : crawl web rfo base m w
        (crawl web rfo base m w [] 0).visited
        (crawl web rfo base m w [] 0).crawl_count
      = initState base (crawl web rfo base m w [] 0).visited
          (crawl web rfo base m w [] 0).crawl_count :=
      crawlLoop_not_guard web (rpAfterRead rfo) base m w _ _
        (fun hcon => Nat.not_lt.mpr hsat hcon.2)
    rw [h]
    rfl

/-- C10 witness: with `webFrag` and budget 2 the first run saturates the
budget, and the repeated call returns an empty report. -/
theorem c10_globals_not_reset_witness :
    (crawl webFrag allowAllRobots "http://h/" 2 5
        (crawl webFrag allowAllRobots "http://h/" 2 5 [] 0).visited
        (crawl webFrag allowAllRobots "http://h/" 2 5 [] 0).crawl_count).report = [] :=
  (c10_globals_not_reset webFrag allowAllRobots "http://h/" 2 5).2 (by decide)
